import Mathlib

/-!
Verification of the feature-engineering core of `src/batch_jobs/stock_etl.py`.

The source builds a Spark dataframe with columns Ticker, Date, Open, High,
Low, Close, Volume and appends derived columns with window expressions, all
of which partition by Ticker, order by Date, and have the current row as the
upper window bound.  We embed the engine per ticker: a ticker's partition is
a list of rows already ordered ascending by Date (the PricePanel invariant),
and each window expression becomes a list computation over the rows up to
the current position.  Spark doubles are idealised as rationals; Spark's
`round(e, 2)` (HALF_UP, ties away from zero) becomes `round2`; Spark's null
is `Option.none` (in non-ANSI mode division by zero yields null, which
`round` and arithmetic propagate).
-/

/-- One row of the input PricePanel (one ticker-day), columns as in the
source dataframe after the reorder at `stock_etl.py` lines 44-46. -/
structure Row where
  Ticker : String
  Date : Int
  Open : ℚ
  High : ℚ
  Low : ℚ
  Close : ℚ
  Volume : ℚ
  deriving Repr, DecidableEq

/-- Default row used only as the `getD` fallback; never read in range. -/
def dRow : Row := ⟨"", 0, 0, 0, 0, 0, 0⟩

/-- Spark `round(e, 2)`: HALF_UP at 2 decimal places, i.e. round half away
from zero, embedded on rationals. -/
def round2 (x : ℚ) : ℚ :=
  if 0 ≤ x then ((Int.floor (x * 100 + 1/2) : ℤ) : ℚ) / 100
  else -(((Int.floor (-x * 100 + 1/2) : ℤ) : ℚ) / 100)

/-- The Close column of a partition. -/
def closes (xs : List Row) : List ℚ := xs.map Row.Close

/-- Spark `avg` over a window of non-null values: sum over row count. -/
def mean (l : List ℚ) : ℚ := l.sum / (l.length : ℚ)

/-- The values a window `rowsBetween(-(k-1), 0)` sees at position `i`:
the last at most `k` elements of the prefix ending at position `i`. -/
def trailing (k i : Nat) (l : List ℚ) : List ℚ :=
  (l.take (i + 1)).drop (i + 1 - k)

/-- `round(avg(Close).over(ma_window_k), 2)` at position `i`
(`stock_etl.py` lines 62-65 and 86-98). -/
def ma (k : Nat) (xs : List Row) (i : Nat) : ℚ :=
  round2 (mean (trailing k i (closes xs)))

/-- `MACD = MA_12 - MA_26` (`stock_etl.py` lines 112-115): the difference of
the two already-rounded moving averages, with no further rounding. -/
def macd (xs : List Row) (i : Nat) : ℚ :=
  ma 12 xs i - ma 26 xs i

/-- `round(avg(MACD).over(signal_window), 2)` with
`signal_window = rowsBetween(-8, 0)` (`stock_etl.py` lines 67 and 117-120). -/
def signalLine (xs : List Row) (i : Nat) : ℚ :=
  round2 (mean (((List.range (i + 1)).map (macd xs)).drop (i + 1 - 9)))

/-- `lag(Close, k)` over the partition: the Close `k` rows earlier, null when
fewer than `k` rows precede (`stock_etl.py` lines 71 and 105). -/
def lagClose (k : Nat) (xs : List Row) (i : Nat) : Option ℚ :=
  if k ≤ i then (xs[i - k]?).map Row.Close else none

/-- `first(Close).over(window_cum)`: the partition's first Close
(`stock_etl.py` line 100). -/
def firstClose (xs : List Row) : ℚ := (xs.headD dRow).Close

/-- Maximum of a list of window values (the window is never empty when read,
so the fallback head is itself part of the list). -/
def listMax (l : List ℚ) : ℚ := l.foldl max (l.headD 0)

/-- `max(Close).over(rowsBetween(unboundedPreceding, 0))`: running maximum of
Close through position `i` (`stock_etl.py` line 124). -/
def peakClose (xs : List Row) (i : Nat) : ℚ :=
  listMax ((closes xs).take (i + 1))

/-- The percentage-change pattern `round((a - b) / b * 100, 2)` shared by
Daily_return, Volatility, Cumulative_Return, Momentum_7d and DrawDown
(`stock_etl.py` lines 73-76, 79-82, 101, 106-109, 126-129).  In non-ANSI
Spark, division by a zero base yields null, which `round` propagates. -/
def pctChange (a b : ℚ) : Option ℚ :=
  if b = 0 then none else some (round2 ((a - b) / b * 100))

/-- One row of the EnrichedPanel: the raw columns plus every derived column
the source appends, in `withColumn` order. -/
structure EnrichedRow where
  Ticker : String
  Date : Int
  Open : ℚ
  High : ℚ
  Low : ℚ
  Close : ℚ
  Volume : ℚ
  Prev_close : Option ℚ
  Daily_return : Option ℚ
  Volatility : Option ℚ
  MA_12 : ℚ
  MA_26 : ℚ
  MA_50 : ℚ
  MA_200 : ℚ
  First_Close : ℚ
  Cumulative_Return : Option ℚ
  Close_7_Days_Ago : Option ℚ
  Momentum_7d : Option ℚ
  MACD : ℚ
  Signal_line : ℚ
  DrawDown : Option ℚ
  deriving Repr, DecidableEq

/-- The enriched row at position `i` of a ticker's date-ordered partition:
each field is the direct translation of the corresponding `withColumn`
expression of `stock_etl.py` lines 71-129. -/
def enrichAt (xs : List Row) (i : Nat) : EnrichedRow where
  Ticker := (xs.getD i dRow).Ticker
  Date := (xs.getD i dRow).Date
  Open := (xs.getD i dRow).Open
  High := (xs.getD i dRow).High
  Low := (xs.getD i dRow).Low
  Close := (xs.getD i dRow).Close
  Volume := (xs.getD i dRow).Volume
  Prev_close := lagClose 1 xs i
  Daily_return := (lagClose 1 xs i).bind (pctChange (xs.getD i dRow).Close)
  Volatility := pctChange (xs.getD i dRow).High (xs.getD i dRow).Low
  MA_12 := ma 12 xs i
  MA_26 := ma 26 xs i
  MA_50 := ma 50 xs i
  MA_200 := ma 200 xs i
  First_Close := firstClose xs
  Cumulative_Return := pctChange (xs.getD i dRow).Close (firstClose xs)
  Close_7_Days_Ago := lagClose 7 xs i
  Momentum_7d := (lagClose 7 xs i).bind (pctChange (xs.getD i dRow).Close)
  MACD := macd xs i
  Signal_line := signalLine xs i
  DrawDown := pctChange (xs.getD i dRow).Close (peakClose xs i)

/-- The Feature Engine on one ticker's partition (rows ordered by Date). -/
def enrich (xs : List Row) : List EnrichedRow :=
  (List.range xs.length).map (enrichAt xs)

/-- Default enriched row used only as a `getD` fallback. -/
def dE : EnrichedRow := enrichAt [] 0

/-- A panel partitioned by Ticker: each entry is one ticker's date-ordered
rows (the partitions `Window.partitionBy` makes the engine operate on).
The engine enriches each ticker's partition independently. -/
def enrichPanel (p : List (String × List Row)) : List (String × List EnrichedRow) :=
  p.map (fun t => (t.1, enrich t.2))

/-- Projection of an enriched row back onto the raw input columns. -/
def rawOf (e : EnrichedRow) : Row :=
  ⟨e.Ticker, e.Date, e.Open, e.High, e.Low, e.Close, e.Volume⟩

/-- Input column names in dataframe order (`stock_etl.py` lines 44-46). -/
def inputColumns : List String :=
  ["Ticker", "Date", "Open", "High", "Low", "Close", "Volume"]

/-- Output column names in order: the input columns followed by each
`withColumn` of `stock_etl.py` lines 71-129 in program order.  The
expression `peak_close` of line 124 is never added as a column; it is only
used inside the DrawDown expression. -/
def enrichedColumns : List String :=
  inputColumns ++
    ["Prev_close", "Daily_return", "Volatility", "MA_12", "MA_26", "MA_50",
     "MA_200", "First_Close", "Cumulative_Return", "Close_7_Days_Ago",
     "Momentum_7d", "MACD", "Signal_line", "DrawDown"]

/-- Modelled from the spec: the section 3 schema column list, raw columns
followed by the derived columns in the order of the section 3 table,
including the `Peak_Close` column the spec lists there. -/
def specColumns : List String :=
  inputColumns ++
    ["Prev_close", "Daily_return", "Volatility", "MA_12", "MA_26", "MA_50",
     "MA_200", "First_Close", "Cumulative_Return", "Close_7_Days_Ago",
     "Momentum_7d", "MACD", "Signal_line", "Peak_Close", "DrawDown"]

/-- The section 8 scenario ticker: Close sequence 100, 110, 99 on three
consecutive days (remaining OHLCV fields arbitrary valid prices). -/
def xs7 : List Row :=
  [⟨"X", 0, 100, 101, 99, 100, 10⟩,
   ⟨"X", 1, 110, 111, 109, 110, 10⟩,
   ⟨"X", 2, 99, 100, 98, 99, 10⟩]

/-- A variant of `xs7` whose third row differs: used to exhibit that rows
after position `i` do not influence the enriched row at `i`. -/
def ys7 : List Row :=
  [⟨"X", 0, 100, 101, 99, 100, 10⟩,
   ⟨"X", 1, 110, 111, 109, 110, 10⟩,
   ⟨"X", 2, 500, 500, 500, 500, 10⟩]

/-- A one-row ticker whose Low is exactly 0 on that day. -/
def cx2 : List Row := [⟨"Z", 0, 10, 12, 0, 11, 5⟩]

/-- A two-row ticker whose second Close sits a hair under the running peak:
the drawdown ratio is -0.001 percent, which rounds to 0.00. -/
def cx6 : List Row :=
  [⟨"X", 0, 100000, 100000, 100000, 100000, 1⟩,
   ⟨"X", 1, 99999, 99999, 99999, 99999, 1⟩]

/-! ## Generic helper lemmas -/

theorem mem_of_getElem?_eq_some {α} {l : List α} {a : α} {i : Nat}
    (h : l[i]? = some a) : a ∈ l := by
  have h2 : i < l.length := by
    by_contra hc
    rw [List.getElem?_eq_none (by omega)] at h
    exact Option.noConfusion h
  rw [List.getElem?_eq_getElem h2] at h
  cases h
  exact List.getElem_mem h2

theorem range_length_map_getD {α} (l : List α) (d : α) :
    (List.range l.length).map (fun i => l.getD i d) = l := by
  induction l with
  | nil => simp
  | cons a t ih =>
    rw [List.length_cons, List.range_succ_eq_map, List.map_cons, List.map_map]
    simp only [List.getD_cons_zero, Function.comp_def, Nat.succ_eq_add_one,
      List.getD_cons_succ]
    rw [ih]

theorem le_foldl_max {l : List ℚ} {b : ℚ} : b ≤ l.foldl max b := by
  induction l generalizing b with
  | nil => simp
  | cons a t ih =>
    simp only [List.foldl_cons]
    exact le_trans (le_max_left b a) ih

theorem mem_le_foldl_max {l : List ℚ} {a b : ℚ} (h : a ∈ l) : a ≤ l.foldl max b := by
  induction l generalizing b with
  | nil => cases h
  | cons c t ih =>
    simp only [List.foldl_cons]
    rcases List.mem_cons.mp h with rfl | h2
    · exact le_trans (le_max_right b a) le_foldl_max
    · exact ih h2

theorem foldl_max_eq_init_or_mem {l : List ℚ} {b : ℚ} :
    l.foldl max b = b ∨ l.foldl max b ∈ l := by
  induction l generalizing b with
  | nil => left; rfl
  | cons a t ih =>
    simp only [List.foldl_cons]
    rcases ih (b := max b a) with h | h
    · rw [h]
      rcases max_cases b a with ⟨h1, _⟩ | ⟨h1, _⟩
      · left; exact h1
      · right; rw [h1]; exact List.mem_cons_self a t
    · right; exact List.mem_cons_of_mem a h

theorem listMax_mem {l : List ℚ} (h : l ≠ []) : listMax l ∈ l := by
  unfold listMax
  rcases foldl_max_eq_init_or_mem with h1 | h1
  · rw [h1]
    cases l with
    | nil => exact absurd rfl h
    | cons a t => simp
  · exact h1

theorem le_listMax {l : List ℚ} {a : ℚ} (h : a ∈ l) : a ≤ listMax l :=
  mem_le_foldl_max h

theorem round2_zero : round2 0 = 0 := by
  unfold round2
  norm_num

theorem round2_nonpos {x : ℚ} (hx : x ≤ 0) : round2 x ≤ 0 := by
  unfold round2
  by_cases h0 : 0 ≤ x
  · rw [if_pos h0]
    have hx0 : x = 0 := le_antisymm hx h0
    subst hx0
    norm_num
  · rw [if_neg h0]
    have hfl : (0:ℤ) ≤ Int.floor (-x * 100 + 1/2) := by
      apply Int.floor_nonneg.mpr
      nlinarith
    have hq : (0:ℚ) ≤ ((Int.floor (-x * 100 + 1/2) : ℤ) : ℚ) / 100 := by
      apply div_nonneg _ (by norm_num)
      exact_mod_cast hfl
    linarith

/-! ## Structural lemmas about the engine -/

theorem enrich_length (xs : List Row) : (enrich xs).length = xs.length := by
  simp [enrich]

theorem enrich_getElem? {xs : List Row} {i : Nat} (h : i < xs.length) :
    (enrich xs)[i]? = some (enrichAt xs i) := by
  rw [enrich, List.getElem?_map, List.getElem?_range h]
  rfl

theorem enrich_getD {xs : List Row} {i : Nat} (h : i < xs.length) :
    (enrich xs).getD i dE = enrichAt xs i := by
  rw [List.getD_eq_getElem?_getD, enrich_getElem? h, Option.getD_some]

theorem getElem?_eq_of_take {α} {xs ys : List α} {i j : Nat} (hj : j < i + 1)
    (h : xs.take (i + 1) = ys.take (i + 1)) : xs[j]? = ys[j]? := by
  have h1 := List.getElem?_take_of_lt (l := xs) (n := i + 1) (m := j) hj
  have h2 := List.getElem?_take_of_lt (l := ys) (n := i + 1) (m := j) hj
  rw [← h1, h, h2]

theorem getD_eq_of_take {α} {xs ys : List α} {i j : Nat} (d : α) (hj : j < i + 1)
    (h : xs.take (i + 1) = ys.take (i + 1)) : xs.getD j d = ys.getD j d := by
  rw [List.getD_eq_getElem?_getD, List.getD_eq_getElem?_getD,
    getElem?_eq_of_take hj h]

theorem headD_eq_of_take {α} {xs ys : List α} {n : Nat} (d : α)
    (h : xs.take (n + 1) = ys.take (n + 1)) : xs.headD d = ys.headD d := by
  cases xs <;> cases ys <;> simp_all [List.take_succ_cons]

theorem take_prefix_eq {α} {xs ys : List α} {i j : Nat} (hj : j ≤ i)
    (h : xs.take (i + 1) = ys.take (i + 1)) : xs.take (j + 1) = ys.take (j + 1) := by
  have h2 := congrArg (List.take (j + 1)) h
  rw [List.take_take, List.take_take, Nat.min_eq_left (by omega)] at h2
  exact h2

theorem closes_take_eq {xs ys : List Row} {i : Nat}
    (h : xs.take (i + 1) = ys.take (i + 1)) :
    (closes xs).take (i + 1) = (closes ys).take (i + 1) := by
  simp only [closes, ← List.map_take, h]

theorem ma_eq_of_take {xs ys : List Row} {i : Nat} (k : Nat)
    (h : xs.take (i + 1) = ys.take (i + 1)) : ma k xs i = ma k ys i := by
  unfold ma trailing
  rw [closes_take_eq h]

theorem macd_eq_of_take {xs ys : List Row} {i j : Nat} (hj : j ≤ i)
    (h : xs.take (i + 1) = ys.take (i + 1)) : macd xs j = macd ys j := by
  have h2 := take_prefix_eq hj h
  unfold macd
  rw [ma_eq_of_take 12 h2, ma_eq_of_take 26 h2]

theorem signalLine_eq_of_take {xs ys : List Row} {i : Nat}
    (h : xs.take (i + 1) = ys.take (i + 1)) : signalLine xs i = signalLine ys i := by
  unfold signalLine
  have hmap : (List.range (i + 1)).map (macd xs) = (List.range (i + 1)).map (macd ys) :=
    List.map_congr_left fun j hj =>
      macd_eq_of_take (Nat.lt_succ_iff.mp (List.mem_range.mp hj)) h
  rw [hmap]

theorem lagClose_eq_of_take {xs ys : List Row} {i : Nat} (k : Nat)
    (h : xs.take (i + 1) = ys.take (i + 1)) : lagClose k xs i = lagClose k ys i := by
  unfold lagClose
  by_cases hk : k ≤ i
  · rw [if_pos hk, if_pos hk, getElem?_eq_of_take (by omega) h]
  · rw [if_neg hk, if_neg hk]

theorem peakClose_eq_of_take {xs ys : List Row} {i : Nat}
    (h : xs.take (i + 1) = ys.take (i + 1)) : peakClose xs i = peakClose ys i := by
  unfold peakClose
  rw [closes_take_eq h]

theorem firstClose_eq_of_take {xs ys : List Row} {i : Nat}
    (h : xs.take (i + 1) = ys.take (i + 1)) : firstClose xs = firstClose ys := by
  unfold firstClose
  rw [headD_eq_of_take dRow h]

theorem enrichAt_eq_of_take {xs ys : List Row} {i : Nat}
    (h : xs.take (i + 1) = ys.take (i + 1)) : enrichAt xs i = enrichAt ys i := by
  unfold enrichAt
  rw [getD_eq_of_take dRow (Nat.lt_succ_self i) h, lagClose_eq_of_take 1 h,
    lagClose_eq_of_take 7 h, ma_eq_of_take 12 h, ma_eq_of_take 26 h,
    ma_eq_of_take 50 h, ma_eq_of_take 200 h, firstClose_eq_of_take h,
    macd_eq_of_take (le_refl i) h, signalLine_eq_of_take h, peakClose_eq_of_take h]

theorem trailing_length {k i : Nat} {l : List ℚ} (h : i < l.length) :
    (trailing k i l).length = min k (i + 1) := by
  unfold trailing
  rw [List.length_drop, List.length_take]
  omega

theorem ma_eq_min_div (k : Nat) (xs : List Row) (i : Nat) (h : i < xs.length) :
    ma k xs i = round2 ((trailing k i (closes xs)).sum / ((min k (i + 1) : ℕ) : ℚ)) := by
  unfold ma mean
  rw [trailing_length (by simpa [closes] using h)]

theorem ma_full_list (k : Nat) (xs : List Row) (hk : xs.length ≤ k) (hne : xs ≠ []) :
    ma k xs (xs.length - 1) = round2 (mean (closes xs)) := by
  unfold ma trailing
  have hlen : (closes xs).length = xs.length := by simp [closes]
  have h1 : xs.length - 1 + 1 = xs.length := by
    cases xs with
    | nil => exact absurd rfl hne
    | cons a t => simp
  rw [h1, show xs.length - k = 0 from by omega, List.drop_zero, ← hlen,
    List.take_length]

theorem peakClose_mem {xs : List Row} {i : Nat} (h : i < xs.length) :
    peakClose xs i ∈ closes xs := by
  unfold peakClose
  have hlt : ((closes xs).take (i + 1)).length = i + 1 := by
    rw [List.length_take]
    simp only [closes, List.length_map]
    omega
  have hne : (closes xs).take (i + 1) ≠ [] := by
    intro hc
    rw [hc] at hlt
    simp at hlt
  exact List.mem_of_mem_take (listMax_mem hne)

theorem close_le_peakClose {xs : List Row} {i : Nat} (h : i < xs.length) :
    (xs.getD i dRow).Close ≤ peakClose xs i := by
  unfold peakClose
  apply le_listMax
  apply mem_of_getElem?_eq_some (i := i)
  rw [List.getElem?_take_of_lt (Nat.lt_succ_self i), closes, List.getElem?_map,
    List.getElem?_eq_getElem h, List.getD_eq_getElem xs dRow h]
  rfl

theorem peakClose_pos {xs : List Row} {i : Nat} (h : i < xs.length)
    (hpos : ∀ r ∈ xs, 0 < r.Close) : 0 < peakClose xs i := by
  have hm := peakClose_mem h
  rw [closes] at hm
  rcases List.mem_map.mp hm with ⟨r, hr, hrc⟩
  rw [← hrc]
  exact hpos r hr

theorem macd_zero_of_lt_twelve (xs : List Row) {j : Nat} (hj : j < 12) :
    macd xs j = 0 := by
  unfold macd ma trailing
  rw [show j + 1 - 12 = 0 from by omega, show j + 1 - 26 = 0 from by omega,
    List.drop_zero]
  exact sub_self _

/-! ## Claim theorems -/

/-- Claim C1, counterexample: the section 3 schema lists a `Peak_Close`
column, but the output dataframe has no such column: `stock_etl.py` line 124
builds the running-maximum expression without ever passing it to
`withColumn`, so the EnrichedPanel handed to the sink lacks `Peak_Close`. -/
theorem peak_close_column_missing :
    "Peak_Close" ∈ specColumns ∧ "Peak_Close" ∉ enrichedColumns := by
  constructor <;> decide

/-- Claim C1, amended: the EnrichedPanel's columns are exactly the section 3
schema minus `Peak_Close`, in schema order; the running maximum of Close is
still computed internally, and DrawDown at every row equals
`round((Close - peak) / peak * 100, 2)` with `peak` that running maximum. -/
theorem columns_without_peak_close :
    enrichedColumns = specColumns.erase "Peak_Close"
  ∧ ∀ (xs : List Row) (i : Nat), i < xs.length →
      ((enrich xs).getD i dE).DrawDown
        = pctChange (xs.getD i dRow).Close (peakClose xs i) := by
  constructor
  · decide
  · intro xs i h
    rw [enrich_getD h]
    rfl

/-- Claim C1 witness: the DrawDown clause applied to the scenario ticker. -/
theorem columns_without_peak_close_witness :
    ((enrich xs7).getD 0 dE).DrawDown
      = pctChange (xs7.getD 0 dRow).Close (peakClose xs7 0) :=
  columns_without_peak_close.2 xs7 0 (by norm_num [xs7])

/-- Claim C2, counterexample: on a row whose Low is exactly 0 the engine
does not fail; it emits the row with a null Volatility (Spark division by
zero yields null), while unrelated columns of the same row are computed. -/
theorem volatility_null_on_zero_low :
    (enrich cx2).length = 1
  ∧ ((enrich cx2).getD 0 dE).Volatility = none
  ∧ ((enrich cx2).getD 0 dE).MA_12 = 11 := by
  refine ⟨by simp [enrich, cx2], ?_, ?_⟩
  · simp [enrich, enrichAt, cx2, lagClose, pctChange, firstClose, peakClose,
      listMax, closes, trailing, mean, ma, macd, signalLine, List.range_succ,
      dRow]
  · simp [enrich, enrichAt, cx2, lagClose, pctChange, firstClose, peakClose,
      listMax, closes, trailing, mean, ma, macd, signalLine, List.range_succ,
      dRow]
    norm_num [round2]

/-- Claim C2, amended: for a row whose ratio denominator is exactly 0 the
dependent derived column of that row is null (not infinity, not a failure):
Volatility is null when the row's Low is 0, Daily_return is null when
Prev_close is 0, and Volatility is a function of that row's High and Low
alone, so all other rows and columns stay valid. -/
theorem zero_denominator_null (xs : List Row) (i : Nat) (h : i < xs.length) :
    ((enrich xs).getD i dE).Volatility
        = pctChange (xs.getD i dRow).High (xs.getD i dRow).Low
  ∧ ((xs.getD i dRow).Low = 0 → ((enrich xs).getD i dE).Volatility = none)
  ∧ (((enrich xs).getD i dE).Prev_close = some 0 →
      ((enrich xs).getD i dE).Daily_return = none) := by
  rw [enrich_getD h]
  refine ⟨rfl, ?_, ?_⟩
  · intro h0
    simp only [enrichAt, pctChange, h0, if_pos]
  · intro hp
    simp only [enrichAt] at hp ⊢
    rw [hp]
    simp [pctChange]

/-- Claim C2 witness: the zero-Low clause applied to the concrete ticker. -/
theorem zero_denominator_null_witness :
    ((enrich cx2).getD 0 dE).Volatility = none :=
  (zero_denominator_null cx2 0 (by norm_num [cx2])).2.1 (by norm_num [cx2, dRow])

/-- Claim C3: each moving average MA_k (k in 12, 26, 50, 200) at position
`i` is the sum of the trailing `min k (i+1)` Close values divided by that
count, rounded to 2 decimals (the trailing window really has that length),
and on a ticker shorter than 12 rows MA_12 at the last row is the rounded
mean of all available Close values. -/
theorem moving_average_partial_window (xs : List Row) (i : Nat) (h : i < xs.length) :
    ((enrich xs).getD i dE).MA_12
        = round2 ((trailing 12 i (closes xs)).sum / ((min 12 (i + 1) : ℕ) : ℚ))
  ∧ ((enrich xs).getD i dE).MA_26
        = round2 ((trailing 26 i (closes xs)).sum / ((min 26 (i + 1) : ℕ) : ℚ))
  ∧ ((enrich xs).getD i dE).MA_50
        = round2 ((trailing 50 i (closes xs)).sum / ((min 50 (i + 1) : ℕ) : ℚ))
  ∧ ((enrich xs).getD i dE).MA_200
        = round2 ((trailing 200 i (closes xs)).sum / ((min 200 (i + 1) : ℕ) : ℚ))
  ∧ (trailing 12 i (closes xs)).length = min 12 (i + 1)
  ∧ (xs.length < 12 → i = xs.length - 1 →
      ((enrich xs).getD i dE).MA_12 = round2 (mean (closes xs))) := by
  rw [enrich_getD h]
  refine ⟨ma_eq_min_div 12 xs i h, ma_eq_min_div 26 xs i h, ma_eq_min_div 50 xs i h,
    ma_eq_min_div 200 xs i h, trailing_length (by simpa [closes] using h), ?_⟩
  intro h12 hi
  have hne : xs ≠ [] := List.ne_nil_of_length_pos (by omega)
  rw [hi]
  exact ma_full_list 12 xs (by omega) hne

/-- Claim C3 witness: on the 3-row scenario ticker, MA_12 at the last row is
the rounded mean of all three Close values. -/
theorem moving_average_partial_window_witness :
    ((enrich xs7).getD 2 dE).MA_12 = round2 (mean (closes xs7)) :=
  (moving_average_partial_window xs7 2 (by norm_num [xs7])).2.2.2.2.2
    (by norm_num [xs7]) (by norm_num [xs7])

/-- Claim C4: MACD at every row is exactly the already-rounded MA_12 minus
the already-rounded MA_26 - the rounded trailing means are subtracted with
no further rounding of the difference. -/
theorem macd_subtracts_rounded_averages (xs : List Row) (i : Nat) (h : i < xs.length) :
    ((enrich xs).getD i dE).MACD
        = round2 (mean (trailing 12 i (closes xs)))
            - round2 (mean (trailing 26 i (closes xs)))
  ∧ ((enrich xs).getD i dE).MACD
        = ((enrich xs).getD i dE).MA_12 - ((enrich xs).getD i dE).MA_26 := by
  rw [enrich_getD h]
  exact ⟨rfl, rfl⟩

/-- Claim C4 witness: the identity applied to the scenario ticker. -/
theorem macd_subtracts_rounded_averages_witness :
    ((enrich xs7).getD 1 dE).MACD
      = ((enrich xs7).getD 1 dE).MA_12 - ((enrich xs7).getD 1 dE).MA_26 :=
  (macd_subtracts_rounded_averages xs7 1 (by norm_num [xs7])).2

/-- Claim C5: no look-ahead.  If two partitions of the same ticker agree on
rows 0..i then their enriched rows at position i coincide (so a change at
any position greater than i never affects position i), and each ticker's
enriched partition is a function of that ticker's rows alone. -/
theorem no_lookahead :
    (∀ (xs ys : List Row) (i : Nat), i < xs.length → i < ys.length →
        xs.take (i + 1) = ys.take (i + 1) → (enrich xs)[i]? = (enrich ys)[i]?)
  ∧ (∀ (p : List (String × List Row)) (i : Nat), i < p.length →
        (enrichPanel p)[i]?
          = some ((p.getD i ("", [])).1, enrich (p.getD i ("", [])).2)) := by
  constructor
  · intro xs ys i hx hy h
    rw [enrich_getElem? hx, enrich_getElem? hy, enrichAt_eq_of_take h]
  · intro p i hp
    rw [enrichPanel, List.getElem?_map, List.getElem?_eq_getElem hp,
      List.getD_eq_getElem p ("", []) hp]
    rfl

/-- Claim C5 witness: `ys7` differs from `xs7` only in the third row, and
the enriched rows at position 1 coincide; a one-ticker panel maps to that
ticker's enriched partition. -/
theorem no_lookahead_witness :
    (enrich xs7)[1]? = (enrich ys7)[1]?
  ∧ (enrichPanel [("X", xs7)])[0]? = some ("X", enrich xs7) :=
  ⟨no_lookahead.1 xs7 ys7 1 (by norm_num [xs7]) (by norm_num [ys7]) rfl,
   no_lookahead.2 [("X", xs7)] 0 (by norm_num)⟩

/-- Claim C6, counterexample: with Close sequence 100000, 99999 all prices
are positive, yet at row 1 the Close is strictly below the running peak
while DrawDown still equals 0, because the ratio -0.001 percent rounds to
0.00: DrawDown = 0 is not equivalent to Close = running maximum. -/
theorem drawdown_zero_without_new_peak :
    (∀ r ∈ cx6, 0 < r.Close)
  ∧ ((enrich cx6).getD 1 dE).DrawDown = some 0
  ∧ (cx6.getD 1 dRow).Close ≠ peakClose cx6 1 := by
  refine ⟨?_, ?_, ?_⟩
  · intro r hr
    simp only [cx6, List.mem_cons, List.not_mem_nil, or_false] at hr
    rcases hr with rfl | rfl <;> norm_num
  · simp [enrich, enrichAt, cx6, lagClose, pctChange, firstClose, peakClose,
      listMax, closes, trailing, mean, ma, macd, signalLine, List.range_succ,
      dRow]
    norm_num [round2]
  · simp [cx6, peakClose, listMax, closes, dRow]
    norm_num

/-- Claim C6, amended: with positive Close values DrawDown is defined and
non-positive at every row, and at any row whose Close equals the running
maximum DrawDown is exactly 0 (the converse fails: a Close within rounding
distance below the peak also yields DrawDown 0). -/
theorem drawdown_nonpositive (xs : List Row) (i : Nat) (h : i < xs.length)
    (hpos : ∀ r ∈ xs, 0 < r.Close) :
    (∃ d, ((enrich xs).getD i dE).DrawDown = some d ∧ d ≤ 0)
  ∧ ((xs.getD i dRow).Close = peakClose xs i →
      ((enrich xs).getD i dE).DrawDown = some 0) := by
  rw [enrich_getD h]
  have hpk : 0 < peakClose xs i := peakClose_pos h hpos
  have hle : (xs.getD i dRow).Close ≤ peakClose xs i := close_le_peakClose h
  constructor
  · refine ⟨round2 (((xs.getD i dRow).Close - peakClose xs i) / peakClose xs i * 100),
      ?_, ?_⟩
    · simp only [enrichAt, pctChange, if_neg (ne_of_gt hpk)]
    · apply round2_nonpos
      have h1 : ((xs.getD i dRow).Close - peakClose xs i) / peakClose xs i ≤ 0 :=
        div_nonpos_of_nonpos_of_nonneg (by linarith) (le_of_lt hpk)
      nlinarith
  · intro hceq
    simp only [enrichAt, pctChange, if_neg (ne_of_gt hpk), hceq]
    rw [sub_self, zero_div, zero_mul, round2_zero]

/-- Claim C6 witness: the amended theorem applied to the scenario ticker at
its final row. -/
theorem drawdown_nonpositive_witness :
    (∃ d, ((enrich xs7).getD 2 dE).DrawDown = some d ∧ d ≤ 0)
  ∧ ((xs7.getD 2 dRow).Close = peakClose xs7 2 →
      ((enrich xs7).getD 2 dE).DrawDown = some 0) :=
  drawdown_nonpositive xs7 2 (by norm_num [xs7])
    (by
      intro r hr
      simp only [xs7, List.mem_cons, List.not_mem_nil, or_false] at hr
      rcases hr with rfl | rfl | rfl <;> norm_num)

/-- Claim C7: for the ticker with Close sequence 100, 110, 99 on three
consecutive days the engine yields Daily_return null, 10.0, -10.0;
Cumulative_Return 0.0, 10.0, -1.0; DrawDown 0.0, 0.0, -10.0 (the running
peak stays 110 after day 2). -/
theorem scenario_close_100_110_99 :
    (enrich xs7).map EnrichedRow.Daily_return = [none, some 10, some (-10)]
  ∧ (enrich xs7).map EnrichedRow.Cumulative_Return = [some 0, some 10, some (-1)]
  ∧ (enrich xs7).map EnrichedRow.DrawDown = [some 0, some 0, some (-10)] := by
  refine ⟨?_, ?_, ?_⟩ <;>
    simp [enrich, enrichAt, xs7, lagClose, pctChange, firstClose, peakClose,
      listMax, closes, trailing, mean, ma, macd, signalLine, List.range_succ,
      dRow] <;>
    norm_num [round2]

/-- Claim C8: the engine never alters the raw columns: projecting every
enriched row back onto Ticker, Date, Open, High, Low, Close, Volume returns
the input partition row for row; only derived columns are appended. -/
theorem engine_preserves_raw_columns (xs : List Row) :
    (enrich xs).map rawOf = xs := by
  have h : (enrich xs).map rawOf
      = (List.range xs.length).map (fun i => xs.getD i dRow) := by
    rw [enrich, List.map_map]
    rfl
  rw [h, range_length_map_getD]

/-- Claim C9: the engine is deterministic: identical input panels produce
identical enriched panels. -/
theorem engine_deterministic (p q : List (String × List Row)) (h : p = q) :
    enrichPanel p = enrichPanel q := by
  rw [h]

/-- Claim C9 witness: applied to a concrete one-ticker panel. -/
theorem engine_deterministic_witness :
    enrichPanel [("X", xs7)] = enrichPanel [("X", xs7)] :=
  engine_deterministic [("X", xs7)] [("X", xs7)] rfl

/-- Claim C10: on the first 12 rows of any ticker the 12-row and 26-row
trailing windows both clip to rows 0..i, so MACD is 0 there, and the
Signal_line (a rounded 9-row trailing mean of MACD) is 0 there as well,
regardless of the Close values. -/
theorem macd_signal_zero_first_twelve (xs : List Row) (i : Nat)
    (h : i < xs.length) (h12 : i < 12) :
    ((enrich xs).getD i dE).MACD = 0 ∧ ((enrich xs).getD i dE).Signal_line = 0 := by
  rw [enrich_getD h]
  constructor
  · exact macd_zero_of_lt_twelve xs h12
  · show signalLine xs i = 0
    unfold signalLine
    have hall : ∀ q ∈ ((List.range (i + 1)).map (macd xs)).drop (i + 1 - 9), q = 0 := by
      intro q hq
      rcases List.mem_map.mp (List.mem_of_mem_drop hq) with ⟨j, hj, rfl⟩
      exact macd_zero_of_lt_twelve xs (by
        have := List.mem_range.mp hj
        omega)
    simp only [mean]
    rw [List.sum_eq_zero hall, zero_div, round2_zero]

/-- Claim C10 witness: applied to the scenario ticker at row 1. -/
theorem macd_signal_zero_first_twelve_witness :
    ((enrich xs7).getD 1 dE).MACD = 0 ∧ ((enrich xs7).getD 1 dE).Signal_line = 0 :=
  macd_signal_zero_first_twelve xs7 1 (by norm_num [xs7]) (by norm_num)
